import Mathlib

/-!
Verification of the resource pool of coh-metrix-dementia
(coh/resource_pool.py, class ResourcePool).

The pool is a memoizing cache with two tiers: a pinned tier whose
entries are never removed, and an unpinned tier bounded by a capacity
(cache_limit) with insertion-order (FIFO) eviction.

Shallow-embedding choices:
- Resource names are strings, argument tuples are lists of naturals and
  resource values are naturals (the Python code treats both as opaque,
  compared only for equality).
- The mutable object state is split in two: the Registry part (the
  fields _hooks, _pinned and _cache_limit, written only by __init__ and
  register) and the CacheState part (the fields _unpinned_cache and
  _pinned_cache, written only by get).  CacheState also carries a ghost
  field hookLog recording, most recent first, every hook invocation
  performed by get; it corresponds to no Python state and only makes
  hook-call counts observable.
- A hook is a function from the argument tuple and the current cache
  state to a new cache state and either a value or an error: Python
  hooks may recursively call get on the same pool (mutating the caches)
  and may raise.  A hook that neither touches the pool nor raises is
  pureHook f.
- Python exceptions are modelled by Except PoolError.
-/

namespace ResourcePool

/-- Resource names (the suffix strings of the Python code). -/
abbrev Name := String

/-- Argument tuples passed to get and to hooks. -/
abbrev Args := List Nat

/-- Resource values produced by hooks. -/
abbrev Val := Nat

/-- The errors the pool can raise.  In Python all three are ValueError
(or an arbitrary exception escaping a hook); the spec names the first
two InvalidCapacity and ResourceNotRegistered.  Hook errors carry an
opaque code. -/
inductive PoolError where
  | invalidCacheLimit (limit : Int)
  | notRegistered (suffix : Name)
  | hookFailure (code : Nat)
deriving DecidableEq

/-- The cache part of the pool state: the two tier lists
(_unpinned_cache and _pinned_cache, each a list of
(suffix, args, data) triples ordered by insertion time) plus the ghost
hook-invocation log. -/
structure CacheState where
  unpinnedCache : List (Name × Args × Val)
  pinnedCache : List (Name × Args × Val)
  hookLog : List (Name × Args)
deriving DecidableEq

/-- A resource hook.  It receives the argument tuple and the current
cache state and returns the cache state it leaves behind together with
either the produced value or the error it raises (Python hooks may call
get on the same pool, so they may read and change the caches). -/
abbrev Hook := Args → CacheState → CacheState × Except PoolError Val

/-- The registry part of the pool state: _hooks (a map from suffix to
hook), _pinned (a set of suffixes, here its indicator function) and
_cache_limit. -/
structure Registry where
  hooks : Name → Option Hook
  pinnedSet : Name → Bool
  cacheLimit : Int

/-- The registry of a freshly constructed pool: no hooks, no pinned
names, the given cache limit. -/
def emptyRegistry (cacheLimit : Int) : Registry :=
  { hooks := fun _ => none, pinnedSet := fun _ => false, cacheLimit := cacheLimit }

/-- The cache state of a freshly constructed pool: both tiers empty
(and an empty ghost log). -/
def emptyState : CacheState :=
  { unpinnedCache := [], pinnedCache := [], hookLog := [] }

/-- ResourcePool.__init__(cache_limit): raises ValueError when the
limit is negative, otherwise yields a pool with empty registry and
empty tiers.  (Python defaults cache_limit to 300.) -/
def initPool (cacheLimit : Int) : Except PoolError (Registry × CacheState) :=
  if cacheLimit < 0 then Except.error (PoolError.invalidCacheLimit cacheLimit)
  else Except.ok (emptyRegistry cacheLimit, emptyState)

/-- ResourcePool.register(suffix, hook, pinned): warns (returned Bool,
modelling logger.warning) when the suffix is already registered, adds
the suffix to _pinned when the pinned flag is set (and only then: a
later registration with pinned false never removes it), and stores the
hook, overwriting any previous one.  The setattr convenience accessor
for identifier-shaped suffixes is pure sugar over get and is not
modelled. -/
def register (reg : Registry) (suffix : Name) (hook : Hook) (pinned : Bool) :
    Registry × Bool :=
  let warned := (reg.hooks suffix).isSome
  let pinnedSet1 := if pinned then (fun n => if n = suffix then true else reg.pinnedSet n)
    else reg.pinnedSet
  ({ hooks := fun n => if n = suffix then some hook else reg.hooks n,
     pinnedSet := pinnedSet1,
     cacheLimit := reg.cacheLimit }, warned)

/-- ResourcePool._get_index composed with the positional read
cache[index][2] that every use site performs: the data of the first
cache entry whose suffix and args both match, or none.  (On the miss
path the Python code re-reads the entry it has just appended through
index len-1; the embedding of get below returns that value directly,
which is the same value.) -/
def getCached : List (Name × Args × Val) → Name → Args → Option Val
  | [], _, _ => none
  | e :: rest, suffix, args =>
    if e.1 = suffix ∧ e.2.1 = args then some e.2.2 else getCached rest suffix args

/-- The eviction step of ResourcePool.get (lines
"if len(self._unpinned_cache) > self._cache_limit: del self._unpinned_cache[0]"):
drop the oldest unpinned entry when the tier exceeds the limit.  It
runs once per get call on the unpinned branch, on the hit path as well
as after an insertion. -/
def evict (reg : Registry) (st : CacheState) : CacheState :=
  if (st.unpinnedCache.length : Int) > reg.cacheLimit then
    { st with unpinnedCache := st.unpinnedCache.tail }
  else st

/-- ResourcePool.get(suffix, *args).  Unregistered suffixes raise; a
pinned suffix is served from or inserted into the pinned tier (no
eviction); an unpinned suffix is served from or inserted into the
unpinned tier and the eviction step then runs.  On a miss the hook runs
on the current cache state (it may change it) and its error, if any,
propagates with the state the hook left behind; the entry is appended
only after the hook returns a value.  The ghost hookLog is extended at
exactly the point where Python evaluates self._hooks[suffix](*args). -/
def get (reg : Registry) (st : CacheState) (suffix : Name) (args : Args) :
    CacheState × Except PoolError Val :=
  match reg.hooks suffix with
  | none => (st, Except.error (PoolError.notRegistered suffix))
  | some hook =>
    if reg.pinnedSet suffix then
      match getCached st.pinnedCache suffix args with
      | some v => (st, Except.ok v)
      | none =>
        let st1 := { st with hookLog := (suffix, args) :: st.hookLog }
        match hook args st1 with
        | (st2, Except.error e) => (st2, Except.error e)
        | (st2, Except.ok v) =>
          ({ st2 with pinnedCache := st2.pinnedCache ++ [(suffix, args, v)] },
           Except.ok v)
    else
      match getCached st.unpinnedCache suffix args with
      | some v => (evict reg st, Except.ok v)
      | none =>
        let st1 := { st with hookLog := (suffix, args) :: st.hookLog }
        match hook args st1 with
        | (st2, Except.error e) => (st2, Except.error e)
        | (st2, Except.ok v) =>
          (evict reg { st2 with unpinnedCache := st2.unpinnedCache ++ [(suffix, args, v)] },
           Except.ok v)

/-- A hook that ignores the pool, computes a value from its arguments
and never fails (the common case in DefaultResourcePool). -/
def pureHook (f : Args → Val) : Hook :=
  fun args st => (st, Except.ok (f args))

/-- A hook that ignores the pool and always raises. -/
def failHook (e : PoolError) : Hook :=
  fun _ st => (st, Except.error e)

/-- Number of times the hook of a given suffix has been invoked with a
given argument tuple, read off the ghost log. -/
def countCalls (suffix : Name) (args : Args) (log : List (Name × Args)) : Nat :=
  log.count (suffix, args)

/-! ### Sequences of pool operations -/

/-- A top-level pool API call: a register call or a get call (the value
and error of a get are irrelevant to state evolution, so runOp keeps
only the state). -/
inductive Op where
  | reg (suffix : Name) (hook : Hook) (pinned : Bool)
  | fetch (suffix : Name) (args : Args)

/-- Run one API call on a pool (registry plus cache state). -/
def runOp (p : Registry × CacheState) : Op → Registry × CacheState
  | Op.reg s h pin => ((register p.1 s h pin).1, p.2)
  | Op.fetch s a => (p.1, (get p.1 p.2 s a).1)

/-- Run a sequence of API calls on a pool. -/
def runOps (p : Registry × CacheState) : List Op → Registry × CacheState
  | [] => p
  | op :: rest => runOps (runOp p op) rest

/-- Run a sequence of get calls against a fixed registry, keeping the
cache state. -/
def runGets (reg : Registry) (st : CacheState) : List (Name × Args) → CacheState
  | [] => st
  | (n, b) :: rest => runGets reg (get reg st n b).1 rest

/-- A hook respects capacity limit C when it never grows the unpinned
tier beyond C from a state within C.  Every hook that touches the pool
only through get calls on that pool has this property (each such call
restores the bound, as the capacity-invariant theorem below shows); in
particular every pure hook has it. -/
def HookOK (limit : Int) (h : Hook) : Prop :=
  ∀ a st, (st.unpinnedCache.length : Int) ≤ limit →
    (((h a st).1.unpinnedCache.length : Int) ≤ limit)

/-- All hooks reachable through a registry respect its capacity. -/
def RegistryOK (reg : Registry) : Prop :=
  ∀ n h, reg.hooks n = some h → HookOK reg.cacheLimit h

/-- All hooks registered along a sequence of API calls respect
capacity limit C. -/
def OpsOK (limit : Int) (ops : List Op) : Prop :=
  ∀ op ∈ ops, match op with
    | Op.reg _ h _ => HookOK limit h
    | Op.fetch _ _ => True

/-- Hooks that pass the cache state through untouched (pure hooks and
failing hooks are such; a hook may still raise).  Used to state pinned
durability. -/
def StatePreservingHooks (reg : Registry) : Prop :=
  ∀ n h, reg.hooks n = some h → ∀ a st, (h a st).1 = st

/-! ### Concrete scenario: FIFO eviction with capacity 2 (claim C2) -/

/-- Three unpinned resources on a pool of unpinned capacity 2. -/
def regC2 : Registry :=
  { hooks := fun n =>
      if n = "A" then some (pureHook (fun _ => 10))
      else if n = "B" then some (pureHook (fun _ => 20))
      else if n = "C3" then some (pureHook (fun _ => 30))
      else none,
    pinnedSet := fun _ => false,
    cacheLimit := 2 }

/-- The cache state after get A, get B, get C3 (in this order, with
distinct argument tuples) on a fresh pool. -/
def stC2 : CacheState :=
  (get regC2 ((get regC2 ((get regC2 emptyState "A" [1]).1) "B" [2]).1) "C3" [3]).1

/-! ### Concrete scenario: recursive dependency sharing (claim C8) -/

/-- The argument tuple t shared by the direct and the recursive request
for X. -/
def argsT : Args := [2]

/-- The hook of resource X: pure, value 5. -/
def hookX : Hook := pureHook (fun _ => 5)

/-- The registry holding only X, closed over by the hook of Y. -/
def regX : Registry :=
  { hooks := fun n => if n = "X" then some hookX else none,
    pinnedSet := fun _ => false,
    cacheLimit := 300 }

/-- The hook of resource Y: during its execution it calls get for X
with tuple t on the same pool and adds one to the result.  In Python
the recursive call goes through self, whose _hooks dictionary also
holds Y; that recursive call only ever consults the entry for X, so
closing over the X-only registry (same pinned set, same limit, same
hook for X) yields the identical behavior. -/
def hookY : Hook := fun _ st =>
  match get regX st "X" argsT with
  | (st2, Except.ok v) => (st2, Except.ok (v + 1))
  | (st2, Except.error e) => (st2, Except.error e)

/-- The full registry of the scenario: X and Y, both unpinned,
capacity 300 (large enough to avoid eviction). -/
def regXY : Registry :=
  { hooks := fun n => if n = "Y" then some hookY else regX.hooks n,
    pinnedSet := fun _ => false,
    cacheLimit := 300 }

/-! ### Concrete scenario: duplicate registration (claim C4) -/

/-- First registration of r: hook returning 1, pinned. -/
def regDup1 : Registry :=
  (register (emptyRegistry 300) "r" (pureHook (fun _ => 1)) true).1

/-- Second registration of r: hook returning 2, NOT pinned.  Under the
claim, the tier of r should now be unpinned. -/
def regDup2 : Registry :=
  (register regDup1 "r" (pureHook (fun _ => 2)) false).1

/-! ### Concrete scenario: pinned durability (claim C3 witness) -/

/-- A pinned resource P (constant 42) and an unpinned resource u
(length of the tuple) on a pool of unpinned capacity 1. -/
def regC3 : Registry :=
  { hooks := fun n =>
      if n = "P" then some (pureHook (fun _ => 42))
      else if n = "u" then some (pureHook List.length)
      else none,
    pinnedSet := fun n => if n = "P" then true else false,
    cacheLimit := 1 }

/-- The state after a first get of P on a fresh pool: the pinned tier
holds the entry (P, [], 42). -/
def stC3 : CacheState := (get regC3 emptyState "P" []).1

/-- Three unpinned insertions with distinct tuples: more than the
unpinned capacity 1 of regC3. -/
def callsC3 : List (Name × Args) := [("u", [1]), ("u", [1, 2]), ("u", [1, 2, 3])]

/-! ### Concrete sequence of API calls (claim C7 witness) -/

/-- Register one unpinned resource, then get it three times with
distinct tuples, on a pool of capacity 1: the third insertion forces
two evictions worth of pressure. -/
def opsC7 : List Op :=
  [Op.reg "a" (pureHook List.length) false,
   Op.fetch "a" [], Op.fetch "a" [5], Op.fetch "a" [5, 6]]

/-! ### Helper lemmas about the cache scan and the eviction step -/

theorem getCached_append_miss (l : List (Name × Args × Val)) (s : Name) (a : Args)
    (v : Val) (h : getCached l s a = none) :
    getCached (l ++ [(s, a, v)]) s a = some v := by
  induction l with
  | nil => simp [getCached]
  | cons e rest ih =>
    rw [getCached] at h
    rw [List.cons_append, getCached]
    by_cases hc : (e.1 = s ∧ e.2.1 = a)
    · rw [if_pos hc] at h; cases h
    · rw [if_neg hc] at h
      rw [if_neg hc]
      exact ih h

theorem getCached_append_hit (l l2 : List (Name × Args × Val)) (s : Name) (a : Args)
    (v : Val) (h : getCached l s a = some v) :
    getCached (l ++ l2) s a = some v := by
  induction l with
  | nil => cases h
  | cons e rest ih =>
    rw [getCached] at h
    rw [List.cons_append, getCached]
    by_cases hc : (e.1 = s ∧ e.2.1 = a)
    · rw [if_pos hc] at h; rw [if_pos hc]; exact h
    · rw [if_neg hc] at h
      rw [if_neg hc]
      exact ih h

theorem evict_pinnedCache (reg : Registry) (st : CacheState) :
    (evict reg st).pinnedCache = st.pinnedCache := by
  unfold evict; split <;> rfl

theorem evict_hookLog (reg : Registry) (st : CacheState) :
    (evict reg st).hookLog = st.hookLog := by
  unfold evict; split <;> rfl

theorem evict_of_le (reg : Registry) (st : CacheState)
    (h : (st.unpinnedCache.length : Int) ≤ reg.cacheLimit) :
    evict reg st = st := by
  unfold evict
  rw [if_neg (by omega)]

/-! ### Claim theorems -/

/-- C6: for every name Q that was never registered and every argument
tuple, get(Q, ...) fails with the ResourceNotRegistered error, invokes
no hook (the ghost log is untouched) and leaves both cache tiers
unchanged: the returned state is exactly the input state. -/
theorem c6_unregistered_get (reg : Registry) (st : CacheState) (Q : Name) (a : Args)
    (h : reg.hooks Q = none) :
    get reg st Q a = (st, Except.error (PoolError.notRegistered Q)) := by
  unfold get
  rw [h]

/-- Witness for c6_unregistered_get: the name q on a fresh pool. -/
theorem c6_unregistered_get_witness :
    get (emptyRegistry 300) emptyState "q" [] =
      (emptyState, Except.error (PoolError.notRegistered "q")) :=
  c6_unregistered_get (emptyRegistry 300) emptyState "q" [] rfl

/-- C9: constructing a pool with a negative unpinned capacity fails
with the invalid-capacity error, and any capacity C at least 0
(including 0) succeeds and yields a pool with empty registry and empty
tiers. -/
theorem c9_init_capacity (c : Int) :
    (c < 0 → initPool c = Except.error (PoolError.invalidCacheLimit c)) ∧
    (0 ≤ c → initPool c = Except.ok (emptyRegistry c, emptyState)) := by
  constructor
  · intro h
    unfold initPool
    rw [if_pos h]
  · intro h
    unfold initPool
    rw [if_neg (by omega)]

/-- Witness for c9_init_capacity at capacities -1 and 0. -/
theorem c9_init_capacity_witness :
    initPool (-1) = Except.error (PoolError.invalidCacheLimit (-1)) ∧
    initPool 0 = Except.ok (emptyRegistry 0, emptyState) :=
  ⟨(c9_init_capacity (-1)).1 (by decide), (c9_init_capacity 0).2 (by decide)⟩

/-- C2: with unpinned capacity 2, after get A, get B, get C3 (distinct
tuples, each hook called once so far), the entry of A has been evicted
(strict insertion-order FIFO): get B and get C3 hit the cache and
return the stored values with the pool state completely unchanged (so
their hooks are not re-invoked), while get A misses, re-invokes the
hook of A and its call count goes from 1 to 2. -/
theorem c2_fifo_eviction :
    getCached stC2.unpinnedCache "A" [1] = none ∧
    countCalls "A" [1] stC2.hookLog = 1 ∧
    countCalls "B" [2] stC2.hookLog = 1 ∧
    countCalls "C3" [3] stC2.hookLog = 1 ∧
    get regC2 stC2 "B" [2] = (stC2, Except.ok 20) ∧
    get regC2 stC2 "C3" [3] = (stC2, Except.ok 30) ∧
    (get regC2 stC2 "A" [1]).2 = Except.ok 10 ∧
    countCalls "A" [1] (get regC2 stC2 "A" [1]).1.hookLog = 2 :=
  ⟨rfl, rfl, rfl, rfl, rfl, rfl, rfl, rfl⟩

/-- C8: the hook of Y requests X with tuple t from the same pool during
its execution; the top-level caller first gets X with t, then gets Y
with t, on a pool of capacity 300 (no eviction).  Both calls succeed
and the hook of X runs exactly once in total: the recursive request
hits the entry cached by the direct one. -/
theorem c8_recursive_sharing :
    (get regXY emptyState "X" argsT).2 = Except.ok 5 ∧
    (get regXY (get regXY emptyState "X" argsT).1 "Y" argsT).2 = Except.ok 6 ∧
    countCalls "X" argsT
      (get regXY (get regXY emptyState "X" argsT).1 "Y" argsT).1.hookLog = 1 :=
  ⟨rfl, rfl, rfl⟩

/-- C4 counterexample: register r pinned with a hook returning 1, then
register r again, unpinned, with a hook returning 2.  The claim says
the tier of r is now the one given by the latest pinned flag, that is
unpinned; in the code the _pinned set only ever grows, so r stays
pinned: a fresh get of r stores its entry (computed by the latest
hook, value 2) in the pinned tier and the unpinned tier stays empty. -/
theorem c4_sticky_pinned_counterexample :
    regDup2.pinnedSet "r" = true ∧
    (get regDup2 emptyState "r" []).1.pinnedCache = [("r", [], 2)] ∧
    (get regDup2 emptyState "r" []).1.unpinnedCache = [] :=
  ⟨rfl, rfl, rfl⟩

/-- C4 amended: re-registering an already registered name does not
fail; it records a non-fatal warning; the latest hook wins (a
cache-miss get in either tier invokes the newest hook); but the pinned
flag is sticky: the resulting tier flag is the disjunction of the old
flag with the new one, so a name once registered pinned stays pinned
even when the latest registration passes pinned false. -/
theorem c4_reregistration_latest_hook (reg : Registry) (suffix : Name)
    (h1 : Hook) (f2 : Args → Val) (p2 : Bool)
    (hreg : reg.hooks suffix = some h1) :
    (register reg suffix (pureHook f2) p2).2 = true ∧
    (register reg suffix (pureHook f2) p2).1.hooks suffix = some (pureHook f2) ∧
    (register reg suffix (pureHook f2) p2).1.pinnedSet suffix =
      (reg.pinnedSet suffix || p2) ∧
    (∀ st a, (register reg suffix (pureHook f2) p2).1.pinnedSet suffix = false →
      getCached st.unpinnedCache suffix a = none →
      (get (register reg suffix (pureHook f2) p2).1 st suffix a).2 =
        Except.ok (f2 a)) ∧
    (∀ st a, (register reg suffix (pureHook f2) p2).1.pinnedSet suffix = true →
      getCached st.pinnedCache suffix a = none →
      (get (register reg suffix (pureHook f2) p2).1 st suffix a).2 =
        Except.ok (f2 a)) := by
  have hhooks : (register reg suffix (pureHook f2) p2).1.hooks suffix =
      some (pureHook f2) := by
    simp [register]
  refine ⟨?_, hhooks, ?_, ?_, ?_⟩
  · simp [register, hreg]
  · cases p2 <;> simp [register]
  · intro st a hpin hmiss
    unfold get
    rw [hhooks, hpin, hmiss]
    simp [pureHook]
  · intro st a hpin hmiss
    unfold get
    rw [hhooks, hpin, hmiss]
    simp [pureHook]

/-- Witness for c4_reregistration_latest_hook: re-register r (first
registered pinned with a hook returning 1) with a hook returning 2 and
pinned false. -/
theorem c4_reregistration_latest_hook_witness :
    (register regDup1 "r" (pureHook (fun _ => 2)) false).2 = true ∧
    (register regDup1 "r" (pureHook (fun _ => 2)) false).1.hooks "r" =
      some (pureHook (fun _ => 2)) ∧
    (register regDup1 "r" (pureHook (fun _ => 2)) false).1.pinnedSet "r" =
      (regDup1.pinnedSet "r" || false) ∧
    (∀ st a, (register regDup1 "r" (pureHook (fun _ => 2)) false).1.pinnedSet "r" = false →
      getCached st.unpinnedCache "r" a = none →
      (get (register regDup1 "r" (pureHook (fun _ => 2)) false).1 st "r" a).2 =
        Except.ok 2) ∧
    (∀ st a, (register regDup1 "r" (pureHook (fun _ => 2)) false).1.pinnedSet "r" = true →
      getCached st.pinnedCache "r" a = none →
      (get (register regDup1 "r" (pureHook (fun _ => 2)) false).1 st "r" a).2 =
        Except.ok 2) :=
  c4_reregistration_latest_hook regDup1 "r" (pureHook (fun _ => 1))
    (fun _ => 2) false rfl

/-- C1: memoization.  For an unpinned resource R registered with a pure
hook, starting from any state where (R, a) is not cached and the
unpinned tier is strictly below capacity (so the fresh entry cannot be
evicted between the calls), the first get invokes the hook exactly once
(the ghost log grows by exactly the one entry (R, a)) and returns its
value; the second get with the same tuple returns the same value and
leaves the whole pool state unchanged, so the hook is not re-invoked. -/
theorem c1_memoization (reg : Registry) (st0 : CacheState) (R : Name) (a : Args)
    (f : Args → Val)
    (hh : reg.hooks R = some (pureHook f))
    (hp : reg.pinnedSet R = false)
    (hm : getCached st0.unpinnedCache R a = none)
    (hcap : (st0.unpinnedCache.length : Int) < reg.cacheLimit) :
    get reg st0 R a =
      ({ st0 with unpinnedCache := st0.unpinnedCache ++ [(R, a, f a)],
                  hookLog := (R, a) :: st0.hookLog }, Except.ok (f a)) ∧
    get reg { st0 with unpinnedCache := st0.unpinnedCache ++ [(R, a, f a)],
                       hookLog := (R, a) :: st0.hookLog } R a =
      ({ st0 with unpinnedCache := st0.unpinnedCache ++ [(R, a, f a)],
                  hookLog := (R, a) :: st0.hookLog }, Except.ok (f a)) := by
  have hlen : (((st0.unpinnedCache ++ [(R, a, f a)]).length : Nat) : Int) ≤
      reg.cacheLimit := by
    have h1 : (st0.unpinnedCache ++ [(R, a, f a)]).length =
        st0.unpinnedCache.length + 1 := by
      simp
    rw [h1]
    push_cast
    omega
  constructor
  · unfold get
    rw [hh, hp, hm]
    simp only [pureHook, Bool.false_eq_true, if_false]
    rw [evict_of_le]
    exact hlen
  · unfold get
    rw [hh, hp]
    have hhit : getCached ({ st0 with
        unpinnedCache := st0.unpinnedCache ++ [(R, a, f a)],
        hookLog := (R, a) :: st0.hookLog } : CacheState).unpinnedCache R a =
        some (f a) :=
      getCached_append_miss st0.unpinnedCache R a (f a) hm
    rw [hhit]
    simp only [Bool.false_eq_true, if_false]
    rw [evict_of_le]
    exact hlen

/-- Witness for c1_memoization: resource m with hook length, tuple
[7, 7], fresh pool of capacity 300. -/
theorem c1_memoization_witness :
    get (register (emptyRegistry 300) "m" (pureHook List.length) false).1
        emptyState "m" [7, 7] =
      ({ emptyState with unpinnedCache := [("m", [7, 7], 2)],
                         hookLog := [("m", [7, 7])] }, Except.ok 2) ∧
    get (register (emptyRegistry 300) "m" (pureHook List.length) false).1
        { emptyState with unpinnedCache := [("m", [7, 7], 2)],
                          hookLog := [("m", [7, 7])] } "m" [7, 7] =
      ({ emptyState with unpinnedCache := [("m", [7, 7], 2)],
                         hookLog := [("m", [7, 7])] }, Except.ok 2) :=
  c1_memoization (register (emptyRegistry 300) "m" (pureHook List.length) false).1
    emptyState "m" [7, 7] List.length rfl rfl rfl (by decide)

/-- One get call with a hook that raises leaving the state as it found
it: the same error comes out of get, the invocation is logged, and
both cache tiers are exactly as before (no partial entry, no
eviction). -/
theorem get_of_failing_hook (reg : Registry) (st : CacheState) (R : Name)
    (a : Args) (h : Hook) (e : PoolError)
    (hh : reg.hooks R = some h)
    (hfail : ∀ s, h a s = (s, Except.error e))
    (hm1 : getCached st.pinnedCache R a = none)
    (hm2 : getCached st.unpinnedCache R a = none) :
    get reg st R a = ({ st with hookLog := (R, a) :: st.hookLog }, Except.error e) := by
  unfold get
  rw [hh]
  by_cases hp : reg.pinnedSet R = true
  · rw [hp, hm1]
    simp [hfail]
  · have hp2 : reg.pinnedSet R = false := by
      revert hp; cases reg.pinnedSet R <;> simp
    rw [hp2, hm2]
    simp [hfail]

/-- C5: if the hook of R raises during a cache-miss get (the hook
itself leaving the pool untouched), that same error propagates to the
caller, no entry is inserted into either tier (only the ghost log
records the failed invocation), and a subsequent get for the same
(name, args) re-invokes the hook: it runs the hook again (the log
grows by the same entry once more) and fails the same way. -/
theorem c5_hook_error_propagates (reg : Registry) (st : CacheState) (R : Name)
    (a : Args) (h : Hook) (e : PoolError)
    (hh : reg.hooks R = some h)
    (hfail : ∀ s, h a s = (s, Except.error e))
    (hm1 : getCached st.pinnedCache R a = none)
    (hm2 : getCached st.unpinnedCache R a = none) :
    get reg st R a = ({ st with hookLog := (R, a) :: st.hookLog }, Except.error e) ∧
    get reg { st with hookLog := (R, a) :: st.hookLog } R a =
      ({ st with hookLog := (R, a) :: (R, a) :: st.hookLog }, Except.error e) := by
  refine ⟨get_of_failing_hook reg st R a h e hh hfail hm1 hm2, ?_⟩
  exact get_of_failing_hook reg { st with hookLog := (R, a) :: st.hookLog } R a h e
    hh hfail hm1 hm2

/-- Witness for c5_hook_error_propagates: a resource whose hook always
raises error code 9, on a fresh pool. -/
theorem c5_hook_error_propagates_witness :
    get (register (emptyRegistry 300) "b" (failHook (PoolError.hookFailure 9)) false).1
        emptyState "b" [] =
      ({ emptyState with hookLog := [("b", [])] },
       Except.error (PoolError.hookFailure 9)) ∧
    get (register (emptyRegistry 300) "b" (failHook (PoolError.hookFailure 9)) false).1
        { emptyState with hookLog := [("b", [])] } "b" [] =
      ({ emptyState with hookLog := [("b", []), ("b", [])] },
       Except.error (PoolError.hookFailure 9)) :=
  c5_hook_error_propagates
    (register (emptyRegistry 300) "b" (failHook (PoolError.hookFailure 9)) false).1
    emptyState "b" [] (failHook (PoolError.hookFailure 9)) (PoolError.hookFailure 9)
    rfl (fun _ => rfl) rfl rfl

/-- C10: with unpinned capacity 0, an unpinned get can never be served
from the cache: starting from the reachable situation of an empty
unpinned tier, get invokes the hook (the log grows), still returns the
value the hook produced in that very call, and the just-inserted entry
is evicted before get returns, so the unpinned tier is empty again and
the next call will invoke the hook once more. -/
theorem c10_capacity_zero (reg : Registry) (st : CacheState) (R : Name) (a : Args)
    (f : Args → Val)
    (hh : reg.hooks R = some (pureHook f))
    (hp : reg.pinnedSet R = false)
    (hc : reg.cacheLimit = 0)
    (he : st.unpinnedCache = []) :
    get reg st R a =
      ({ st with hookLog := (R, a) :: st.hookLog }, Except.ok (f a)) ∧
    (get reg st R a).1.unpinnedCache = [] := by
  obtain ⟨u, pc, l⟩ := st
  have hu : u = [] := he
  subst hu
  have key : get reg ⟨[], pc, l⟩ R a =
      ({ unpinnedCache := [], pinnedCache := pc, hookLog := (R, a) :: l },
       Except.ok (f a)) := by
    unfold get
    rw [hh, hp]
    simp only [Bool.false_eq_true, if_false]
    have hm : getCached ([] : List (Name × Args × Val)) R a = none := rfl
    rw [hm]
    simp only [pureHook]
    unfold evict
    rw [if_pos (by rw [hc]; simp)]
    rfl
  exact ⟨key, by rw [key]⟩

/-- Witness for c10_capacity_zero: one unpinned resource on a fresh
pool of capacity 0. -/
theorem c10_capacity_zero_witness :
    get (register (emptyRegistry 0) "z" (pureHook List.length) false).1
        emptyState "z" [4, 5, 6] =
      ({ emptyState with hookLog := [("z", [4, 5, 6])] }, Except.ok 3) ∧
    (get (register (emptyRegistry 0) "z" (pureHook List.length) false).1
        emptyState "z" [4, 5, 6]).1.unpinnedCache = [] :=
  c10_capacity_zero (register (emptyRegistry 0) "z" (pureHook List.length) false).1
    emptyState "z" [4, 5, 6] List.length rfl rfl rfl rfl

/-- A single get call, whatever name it asks for and however it ends,
never removes a pinned entry: any hit in the pinned tier survives (the
tier is only ever appended to, and eviction acts on the unpinned tier
only).  Hooks are assumed to pass the cache state through, as every
hook that does not touch the pool does. -/
theorem get_keeps_pinned_hit (reg : Registry) (hpres : StatePreservingHooks reg)
    (st : CacheState) (n : Name) (b : Args) (P : Name) (a : Args) (v : Val)
    (hv : getCached st.pinnedCache P a = some v) :
    getCached (get reg st n b).1.pinnedCache P a = some v := by
  unfold get
  cases hn : reg.hooks n with
  | none => exact hv
  | some h =>
    have hps := hpres n h hn
    by_cases hp : reg.pinnedSet n = true
    · rw [hp]
      simp only [if_true]
      cases hhit : getCached st.pinnedCache n b with
      | some w => exact hv
      | none =>
        rcases hr : h b { st with hookLog := (n, b) :: st.hookLog } with ⟨st2, r⟩
        have h2 : st2 = { st with hookLog := (n, b) :: st.hookLog } := by
          have := hps b { st with hookLog := (n, b) :: st.hookLog }
          rw [hr] at this
          exact this
        cases r with
        | error e =>
          simp only []
          rw [h2]
          exact hv
        | ok w =>
          simp only []
          rw [h2]
          exact getCached_append_hit st.pinnedCache [(n, b, w)] P a v hv
    · have hp2 : reg.pinnedSet n = false := by
        revert hp; cases reg.pinnedSet n <;> simp
      rw [hp2]
      simp only [Bool.false_eq_true, if_false]
      cases hhit : getCached st.unpinnedCache n b with
      | some w =>
        rw [evict_pinnedCache]
        exact hv
      | none =>
        rcases hr : h b { st with hookLog := (n, b) :: st.hookLog } with ⟨st2, r⟩
        have h2 : st2 = { st with hookLog := (n, b) :: st.hookLog } := by
          have := hps b { st with hookLog := (n, b) :: st.hookLog }
          rw [hr] at this
          exact this
        cases r with
        | error e =>
          simp only []
          rw [h2]
          exact hv
        | ok w =>
          simp only []
          rw [evict_pinnedCache]
          rw [h2]
          exact hv

/-- Pinned hits survive any sequence of get calls. -/
theorem runGets_keeps_pinned_hit (reg : Registry) (hpres : StatePreservingHooks reg)
    (P : Name) (a : Args) (v : Val) :
    ∀ (calls : List (Name × Args)) (st : CacheState),
      getCached st.pinnedCache P a = some v →
      getCached (runGets reg st calls).pinnedCache P a = some v := by
  intro calls
  induction calls with
  | nil =>
    intro st hv
    exact hv
  | cons c rest ih =>
    intro st hv
    rcases c with ⟨n, b⟩
    rw [runGets]
    exact ih _ (get_keeps_pinned_hit reg hpres st n b P a v hv)

/-- C3: pinned durability.  If the pinned resource P has its entry for
tuple a cached with value v, then after ANY sequence of further get
calls (in particular any number of unpinned insertions beyond the
unpinned capacity), get P a still returns v and leaves the pool state
completely unchanged: the hook of P is not re-invoked (the ghost log
does not grow) because pinned entries are never removed once inserted.
Hooks are assumed to leave the cache state as they found it, which
holds for every hook that does not touch the pool. -/
theorem c3_pinned_durability (reg : Registry) (st : CacheState) (P : Name)
    (a : Args) (v : Val) (h : Hook) (calls : List (Name × Args))
    (hpres : StatePreservingHooks reg)
    (hh : reg.hooks P = some h)
    (hp : reg.pinnedSet P = true)
    (hv : getCached st.pinnedCache P a = some v) :
    get reg (runGets reg st calls) P a = (runGets reg st calls, Except.ok v) := by
  have hkeep := runGets_keeps_pinned_hit reg hpres P a v calls st hv
  unfold get
  rw [hh, hp, hkeep]
  simp

/-- All hooks of regC3 pass the cache state through untouched. -/
theorem regC3_preserving : StatePreservingHooks regC3 := by
  intro n h hn a st
  simp only [regC3] at hn
  by_cases h1 : n = "P"
  · rw [if_pos h1] at hn
    injection hn with hn
    rw [← hn]
    rfl
  · rw [if_neg h1] at hn
    by_cases h2 : n = "u"
    · rw [if_pos h2] at hn
      injection hn with hn
      rw [← hn]
      rfl
    · rw [if_neg h2] at hn
      cases hn

/-- Witness for c3_pinned_durability: P cached with value 42, then
three unpinned insertions on a pool of capacity 1, then get P. -/
theorem c3_pinned_durability_witness :
    get regC3 (runGets regC3 stC3 callsC3) "P" [] =
      (runGets regC3 stC3 callsC3, Except.ok 42) :=
  c3_pinned_durability regC3 stC3 "P" [] 42 (pureHook (fun _ => 42)) callsC3
    regC3_preserving rfl rfl rfl

/-- The eviction step brings an unpinned tier that exceeds a
nonnegative capacity by at most one back within the capacity. -/
theorem evict_bound (reg : Registry) (st : CacheState)
    (h0 : 0 ≤ reg.cacheLimit)
    (h : (st.unpinnedCache.length : Int) ≤ reg.cacheLimit + 1) :
    ((evict reg st).unpinnedCache.length : Int) ≤ reg.cacheLimit := by
  unfold evict
  split
  next hgt =>
    show ((st.unpinnedCache.tail.length : Nat) : Int) ≤ reg.cacheLimit
    rw [List.length_tail]
    omega
  next hle =>
    omega

/-- Every pure hook respects every capacity. -/
theorem pureHook_hookOK (limit : Int) (f : Args → Val) :
    HookOK limit (pureHook f) :=
  fun _ _ hst => hst

/-- register never changes the capacity. -/
theorem register_cacheLimit (reg : Registry) (s : Name) (h : Hook) (p : Bool) :
    (register reg s h p).1.cacheLimit = reg.cacheLimit := rfl

/-- register keeps a registry capacity-respecting when the new hook
respects the capacity. -/
theorem register_registryOK (reg : Registry) (s : Name) (h : Hook) (p : Bool)
    (hok : RegistryOK reg) (hh : HookOK reg.cacheLimit h) :
    RegistryOK (register reg s h p).1 := by
  intro n h2 hn2
  rw [register_cacheLimit]
  simp only [register] at hn2
  by_cases he : n = s
  · rw [if_pos he] at hn2
    injection hn2 with hn2
    rw [← hn2]
    exact hh
  · rw [if_neg he] at hn2
    exact hok n h2 hn2

/-- A single get call keeps the unpinned tier within a nonnegative
capacity, provided every registered hook does. -/
theorem get_unpinned_bound (reg : Registry) (st : CacheState) (n : Name) (b : Args)
    (hok : RegistryOK reg)
    (h0 : 0 ≤ reg.cacheLimit)
    (hst : (st.unpinnedCache.length : Int) ≤ reg.cacheLimit) :
    ((get reg st n b).1.unpinnedCache.length : Int) ≤ reg.cacheLimit := by
  unfold get
  cases hn : reg.hooks n with
  | none => exact hst
  | some h =>
    have hhok : HookOK reg.cacheLimit h := hok n h hn
    by_cases hp : reg.pinnedSet n = true
    · rw [hp]
      simp only [if_true]
      cases hhit : getCached st.pinnedCache n b with
      | some w => exact hst
      | none =>
        rcases hr : h b { st with hookLog := (n, b) :: st.hookLog } with ⟨st2, r⟩
        have h2 : (st2.unpinnedCache.length : Int) ≤ reg.cacheLimit := by
          have := hhok b { st with hookLog := (n, b) :: st.hookLog } hst
          rw [hr] at this
          exact this
        cases r with
        | error e => exact h2
        | ok w => exact h2
    · have hp2 : reg.pinnedSet n = false := by
        revert hp; cases reg.pinnedSet n <;> simp
      rw [hp2]
      simp only [Bool.false_eq_true, if_false]
      cases hhit : getCached st.unpinnedCache n b with
      | some w =>
        exact evict_bound reg st h0 (by omega)
      | none =>
        rcases hr : h b { st with hookLog := (n, b) :: st.hookLog } with ⟨st2, r⟩
        have h2 : (st2.unpinnedCache.length : Int) ≤ reg.cacheLimit := by
          have := hhok b { st with hookLog := (n, b) :: st.hookLog } hst
          rw [hr] at this
          exact this
        cases r with
        | error e => exact h2
        | ok w =>
          refine evict_bound reg _ h0 ?_
          show (((st2.unpinnedCache ++ [(n, b, w)]).length : Nat) : Int) ≤
            reg.cacheLimit + 1
          rw [List.length_append]
          push_cast
          simp only [List.length_cons, List.length_nil]
          omega

/-- Running a sequence of API calls from a capacity-respecting pool
keeps the registry capacity-respecting, the capacity fixed, and the
unpinned tier within the capacity, provided every hook registered
along the way respects the capacity. -/
theorem runOps_bound (c : Int) (h0 : 0 ≤ c) :
    ∀ (ops : List Op) (p : Registry × CacheState),
      RegistryOK p.1 → p.1.cacheLimit = c → OpsOK c ops →
      (p.2.unpinnedCache.length : Int) ≤ c →
      RegistryOK (runOps p ops).1 ∧ (runOps p ops).1.cacheLimit = c ∧
        ((runOps p ops).2.unpinnedCache.length : Int) ≤ c := by
  intro ops
  induction ops with
  | nil =>
    intro p hok hcap _ hst
    exact ⟨hok, hcap, hst⟩
  | cons op rest ih =>
    intro p hok hcap hops hst
    have hopsRest : OpsOK c rest := fun o ho => hops o (List.mem_cons_of_mem op ho)
    rw [runOps]
    cases op with
    | reg s h pin =>
      have hh : HookOK c h := hops (Op.reg s h pin) (List.mem_cons_self _ _)
      refine ih ((register p.1 s h pin).1, p.2) ?_ ?_ hopsRest hst
      · exact register_registryOK p.1 s h pin hok (by rw [hcap]; exact hh)
      · rw [register_cacheLimit]; exact hcap
    | fetch s a =>
      refine ih (p.1, (get p.1 p.2 s a).1) hok hcap hopsRest ?_
      have := get_unpinned_bound p.1 p.2 s a hok (by rw [hcap]; exact h0)
        (by rw [hcap]; exact hst)
      rw [hcap] at this
      exact this

/-- C7: capacity invariant.  For every pool constructed with capacity
C at least 0 and every sequence of register and get calls whose
registered hooks respect the capacity (as every hook that touches the
pool only through get does, and every pure hook trivially does), the
unpinned tier holds at most C entries when the sequence has run.
Since the sequence is arbitrary, this bounds the tier after every
prefix, that is after each call completes. -/
theorem c7_capacity_invariant (c : Int) (ops : List Op)
    (hc : 0 ≤ c) (hops : OpsOK c ops) :
    ((runOps (emptyRegistry c, emptyState) ops).2.unpinnedCache.length : Int) ≤ c := by
  have hok : RegistryOK (emptyRegistry c) := by
    intro n h hn
    simp [emptyRegistry] at hn
  exact (runOps_bound c hc ops (emptyRegistry c, emptyState) hok rfl hops
    (by simp [emptyState]; omega)).2.2

/-- Witness for c7_capacity_invariant: capacity 1, one registration
and three gets with distinct tuples. -/
theorem c7_capacity_invariant_witness :
    OpsOK 1 opsC7 ∧
    ((runOps (emptyRegistry 1, emptyState) opsC7).2.unpinnedCache.length : Int) ≤ 1 := by
  have hops : OpsOK 1 opsC7 := by
    intro op hop
    simp only [opsC7, List.mem_cons, List.not_mem_nil, or_false] at hop
    rcases hop with rfl | rfl | rfl | rfl
    · exact pureHook_hookOK 1 List.length
    · trivial
    · trivial
    · trivial
  exact ⟨hops, c7_capacity_invariant 1 opsC7 (by decide) hops⟩

end ResourcePool
